import Mathlib

/-!
Verification of the pymurgy hop-utilization / bitterness engine.

Shallow embedding of `pymurgy/ingredients/hop.py` (class `Hop`: methods
`utilization_mibu`, `utilization_tinseth`, `ibu`, `ibu_tinseth`, `_ibu`,
`reset_graph`) and of `pymurgy/calc.py` (`celsius_to_kelvin`,
`kelvin_to_celsius`, `cooling_coefficient`, `cool_time`).

Python floats are modelled as exact reals; `float.__pow__` becomes `Real.rpow`,
`math.exp` becomes `Real.exp`, `math.log` becomes `Real.log`,
`math.sqrt` becomes `Real.sqrt`.  The `while True` loop of `utilization_mibu`
is modelled as a fuel-indexed recursion over an explicit loop state; a run
either breaks out of the loop (`MibuResult.ok`), raises the `ValueError` of
`cool_time` (`MibuResult.valueError`, carrying the state at the raise point),
or exhausts its fuel (`MibuResult.fuelOut`).  The class variables
`integration_time` and `store_graph`, and the mutable `graph` attribute, are
passed explicitly.
-/

noncomputable section

/-- `Stage` enum from `pymurgy/common.py` (MASH, BOIL, FERMENT, CONDITION). -/
inductive Stage where
  | MASH
  | BOIL
  | FERMENT
  | CONDITION
deriving DecidableEq, Repr

/-- The `Hop` dataclass fields (`stage` inherited from `Ingredient`):
stage, name, amount in grams `g`, boil time `time`, alpha acid `aa`. -/
structure Hop where
  stage : Stage
  name : String
  g : ℝ
  time : ℝ
  aa : ℝ

/-- The `graph` attribute of `Hop`: a dict of lists.  `reset_graph` installs
the keys "time", "temperature" and "utilization"; the key "ibu" is only added
after a successful `utilization_mibu` run with `store_graph` set, modelled
here as a fourth list that is empty until then.  The "utilization" list holds
`None` as its first recorded entry, hence `Option ℝ` elements. -/
structure Graph where
  time : List ℝ
  temperature : List ℝ
  utilization : List (Option ℝ)
  ibu : List (Option ℝ)

/-- `Hop.reset_graph`: fresh empty graph data. -/
def reset_graph : Graph :=
  { time := [], temperature := [], utilization := [], ibu := [] }

/-- `calc.celsius_to_kelvin`. -/
def celsius_to_kelvin (celsius : ℝ) : ℝ := celsius + 273.15

/-- `calc.kelvin_to_celsius`. -/
def kelvin_to_celsius (kelvin : ℝ) : ℝ := kelvin - 273.15

/-- The formula returned by `calc.cooling_coefficient` (the raise-free part). -/
def cooling_coefficient (temp_surround temp_target time temp_init : ℝ) : ℝ :=
  (1 / -time) * Real.log ((temp_target - temp_surround) / (temp_init - temp_surround))

/-- `calc.cooling_coefficient` with its `ValueError` guard. -/
def cooling_coefficientE (temp_surround temp_target time temp_init : ℝ) :
    Except String ℝ :=
  if temp_target ≤ temp_surround then
    .error "Target temperature can not be lower than surrounding temperature"
  else
    .ok (cooling_coefficient temp_surround temp_target time temp_init)

/-- The formula returned by `calc.cool_time` (the raise-free part). -/
def cool_time (temp_surround temp_target cooling_coefficient temp_init : ℝ) : ℝ :=
  -1.0 * Real.log ((temp_target - temp_surround) / (temp_init - temp_surround))
    / cooling_coefficient

/-- `calc.cool_time` with its `ValueError` guard. -/
def cool_timeE (temp_surround temp_target cooling_coefficient temp_init : ℝ) :
    Except String ℝ :=
  if temp_target ≤ temp_surround then
    .error "Target temperature can not be lower than surrounding temperature"
  else
    .ok (cool_time temp_surround temp_target cooling_coefficient temp_init)

/-- All inputs of a `Hop.utilization_mibu` call: the receiver `hop`, the
method arguments, and the class variables `integration_time`/`store_graph`. -/
structure MibuParams where
  hop : Hop
  pre_boil_gravity : ℝ
  post_boil_gravity : ℝ
  temp_approach : ℝ
  temp_target : ℝ
  cooling_coefficient : ℝ
  boil_time : ℝ
  post_boil_volume : ℝ
  whirlpool_time : ℝ
  surface_area : ℝ
  opening_area : Option ℝ
  integration_time : ℝ
  store_graph : Bool

/-- `k_extract = (post_boil_gravity - 1) * post_boil_volume` (hop.py line 87). -/
def MibuParams.kExtract (p : MibuParams) : ℝ :=
  (p.post_boil_gravity - 1) * p.post_boil_volume

/-- `pre_boil_volume = k_extract / (pre_boil_gravity - 1)` (hop.py line 88). -/
def MibuParams.preBoilVolume (p : MibuParams) : ℝ :=
  p.kExtract / (p.pre_boil_gravity - 1)

/-- `boil_off_rate = 1 - (post_boil_volume / pre_boil_volume) ** (1 / boil_time)`
(hop.py line 89). -/
def MibuParams.boilOffRate (p : MibuParams) : ℝ :=
  1 - (p.post_boil_volume / p.preBoilVolume) ^ ((1 : ℝ) / p.boil_time)

/-- `add_time = boil_time - self.time` (hop.py line 90). -/
def MibuParams.addTime (p : MibuParams) : ℝ :=
  p.boil_time - p.hop.time

/-- `if opening_area is None: opening_area = surface_area` (hop.py lines 92-93). -/
def MibuParams.openingArea (p : MibuParams) : ℝ :=
  p.opening_area.getD p.surface_area

/-- The local variables of the `utilization_mibu` loop.
`temp_post_whirlpool` is unassigned in Python until the whirlpool boundary is
crossed; it is initialised to the junk value 0 here, and the loop never reads
it before assigning it. -/
structure MibuState where
  t : ℝ
  util_time : ℝ
  gravity : ℝ
  temp_k : ℝ
  temp_post_whirlpool : ℝ
  u_total : ℝ
  whirlpool_done : Bool
  graph : Graph

/-- Local state before the loop (hop.py lines 82-98): graph seeded when
`store_graph`, `gravity = post_boil_gravity`, `util_time = self.time +
whirlpool_time`, `t = 0`, `temp_k = celsius_to_kelvin(100)`, `u_total = 0`. -/
def mibuInit (p : MibuParams) (gr : Graph) : MibuState :=
  { t := 0,
    util_time := p.hop.time + p.whirlpool_time,
    gravity := p.post_boil_gravity,
    temp_k := celsius_to_kelvin 100,
    temp_post_whirlpool := 0,
    u_total := 0,
    whirlpool_done := false,
    graph := if p.store_graph then
        { time := [0], temperature := [100.0], utilization := [none], ibu := [] }
      else gr }

/-- The gravity value used by the current step (hop.py lines 108-110): updated
from the boil-off model while `t < self.time`, otherwise the `gravity`
variable keeps its previous value. -/
def mibuGravity (p : MibuParams) (s : MibuState) : ℝ :=
  if s.t < p.hop.time then
    1 + p.kExtract / (p.preBoilVolume * (1 - p.boilOffRate) ^ (p.addTime + s.t))
  else s.gravity

/-- The temperature (Kelvin) used by the current step (hop.py lines 108-130):
constant during boil, natural-cooling fit during whirlpool, Newtonian forced
cooling afterwards. -/
def mibuTemp (p : MibuParams) (s : MibuState) : ℝ :=
  if s.t < p.hop.time then s.temp_k
  else if s.t < p.hop.time + p.whirlpool_time then
    53.6 * Real.exp (-1.0 *
      (0.0002925 * Real.sqrt (p.surface_area * p.openingArea) / p.post_boil_volume
        + 0.00538) * (s.t - p.hop.time)) + 319.55
  else
    celsius_to_kelvin ((s.temp_post_whirlpool - p.temp_approach) *
      Real.exp (-1.0 * p.cooling_coefficient * (s.t - p.whirlpool_time - p.hop.time))
      + p.temp_approach)

/-- `dU` (hop.py line 131). -/
def mibuDU (p : MibuParams) (s : MibuState) : ℝ :=
  -1.65 * (0.000125 : ℝ) ^ (mibuGravity p s - 1.0) * -0.04
    * Real.exp (-0.04 * s.t) / 4.15

/-- `degree_of_utilization` (hop.py lines 132-134): thermal factor clamped at
1, overridden to 1 for `t < 5`. -/
def mibuDeg (p : MibuParams) (s : MibuState) : ℝ :=
  if s.t < 5.0 then 1.0
  else min 1.0 (2.39 * (10.0 : ℝ) ^ (11.0 : ℝ) * Real.exp (-9773.0 / mibuTemp p s))

/-- One pass of the loop body below the boundary check (hop.py lines 108-141):
update gravity and temperature, accumulate `u_total`, record graph samples,
advance `t` by `integration_time`. -/
def mibuBody (p : MibuParams) (s : MibuState) : MibuState :=
  { t := s.t + p.integration_time,
    util_time := s.util_time,
    gravity := mibuGravity p s,
    temp_k := mibuTemp p s,
    temp_post_whirlpool := s.temp_post_whirlpool,
    u_total := s.u_total + mibuDU p s * mibuDeg p s * p.integration_time,
    whirlpool_done := s.whirlpool_done,
    graph := if p.store_graph then
        { time := s.graph.time ++ [p.addTime + s.t],
          temperature := s.graph.temperature ++ [kelvin_to_celsius (mibuTemp p s)],
          utilization := s.graph.utilization ++ [some (mibuDU p s * mibuDeg p s)],
          ibu := s.graph.ibu }
      else s.graph }

/-- Outcome of one loop iteration: continue with a new state, break out,
or raise the `ValueError` of `cool_time`. -/
inductive StepOut where
  | next (s : MibuState)
  | brk (s : MibuState)
  | err (msg : String) (s : MibuState)

/-- One iteration of `while True` (hop.py lines 99-141): if `t >= util_time`
then either break (whirlpool already done) or set `whirlpool_done`, record
`temp_post_whirlpool` and extend `util_time` by `cool_time` (which may raise),
then run the body; otherwise just run the body. -/
def mibuStep (p : MibuParams) (s : MibuState) : StepOut :=
  if s.util_time ≤ s.t then
    if s.whirlpool_done then .brk s
    else
      match cool_timeE p.temp_approach p.temp_target p.cooling_coefficient
          (kelvin_to_celsius s.temp_k) with
      | .error msg => .err msg s
      | .ok ct =>
          .next (mibuBody p
            { s with whirlpool_done := true,
                     temp_post_whirlpool := kelvin_to_celsius s.temp_k,
                     util_time := s.util_time + ct })
  else .next (mibuBody p s)

/-- `Hop._ibu` (hop.py lines 249-251). -/
def ibuAux (h : Hop) (utilization post_boil_volume : ℝ) : ℝ :=
  utilization * h.aa * 1000.0 * h.g / post_boil_volume

/-- After the loop breaks (hop.py lines 142-144): derive the graph "ibu"
series when `store_graph`, and return `u_total`. -/
def mibuFinish (p : MibuParams) (s : MibuState) : ℝ × Graph :=
  (s.u_total,
    if p.store_graph then
      { s.graph with
        ibu := s.graph.utilization.map (fun u =>
          u.map (fun v => ibuAux p.hop v p.post_boil_volume)) }
    else s.graph)

/-- Result of a fuel-bounded run of the `utilization_mibu` loop. -/
inductive MibuResult where
  | ok (u : ℝ) (gr : Graph)
  | valueError (msg : String) (s : MibuState)
  | fuelOut

/-- The `while True` loop, bounded by `fuel` iterations. -/
def mibuLoop (p : MibuParams) : ℕ → MibuState → MibuResult
  | 0, _ => .fuelOut
  | fuel + 1, s =>
    match mibuStep p s with
    | .next s' => mibuLoop p fuel s'
    | .brk s' => .ok (mibuFinish p s').1 (mibuFinish p s').2
    | .err msg s' => .valueError msg s'

/-- `Hop.utilization_mibu` (hop.py lines 45-144), with the incoming graph
attribute and an explicit iteration budget. -/
def utilization_mibu (p : MibuParams) (fuel : ℕ) (gr : Graph) : MibuResult :=
  mibuLoop p fuel (mibuInit p gr)

/-- `Hop.utilization_tinseth` (hop.py lines 146-165).  Python computes
`math.e ** (-0.04 * self.time)`, i.e. `rpow` with base `e`. -/
def utilization_tinseth (h : Hop) (pre_boil_gravity post_boil_gravity : ℝ) : ℝ :=
  (1.65 * (0.000125 : ℝ) ^ ((pre_boil_gravity + post_boil_gravity) / 2.0 - 1.0)) *
    ((1.0 - (Real.exp 1) ^ (-0.04 * h.time)) / 4.15)

/-- `Hop.ibu` (hop.py lines 167-222): stage gate, then mIBU utilization fed
through `_ibu`; non-BOIL stages return 0 with the graph untouched. -/
def ibu (p : MibuParams) (fuel : ℕ) (gr : Graph) : MibuResult :=
  if p.hop.stage = Stage.BOIL then
    match utilization_mibu p fuel gr with
    | .ok u g => .ok (ibuAux p.hop u p.post_boil_volume) g
    | r => r
  else .ok 0 gr

/-- `Hop.ibu_tinseth` (hop.py lines 224-243). -/
def ibu_tinseth (h : Hop) (pre_boil_gravity post_boil_gravity post_boil_volume : ℝ) : ℝ :=
  if h.stage = Stage.BOIL then
    ibuAux h (utilization_tinseth h pre_boil_gravity post_boil_gravity) post_boil_volume
  else 0

/-- Projection: did the run return normally? -/
def MibuResult.isOk : MibuResult → Bool
  | .ok _ _ => true
  | _ => false

/-- Projection: the returned utilization, when the run returned normally. -/
def MibuResult.value : MibuResult → Option ℝ
  | .ok u _ => some u
  | _ => none

/-- Projection: the elapsed addition time at the point where `ValueError`
was raised, when it was. -/
def MibuResult.errTime : MibuResult → Option ℝ
  | .valueError _ s => some s.t
  | _ => none

/-- The state after one loop iteration (staying put on break or error);
used to speak about the sequence of states the loop visits. -/
def mibuNext (p : MibuParams) (s : MibuState) : MibuState :=
  match mibuStep p s with
  | .next s' => s'
  | .brk s' => s'
  | .err _ s' => s'

/-- The state visited by the loop after `n` iterations. -/
def mibuIter (p : MibuParams) (gr : Graph) : ℕ → MibuState
  | 0 => mibuInit p gr
  | n + 1 => mibuNext p (mibuIter p gr n)

/-! ### Concrete example inputs used by the witness theorems -/

/-- A boil-stage flameout addition (time 0). -/
def exHop : Hop :=
  { stage := Stage.BOIL, name := "cascade", g := 10, time := 0, aa := 0.1 }

/-- The same addition moved to the mash stage. -/
def exHopMash : Hop :=
  { exHop with stage := Stage.MASH }

/-- A concrete valid parameter set, with the cooling coefficient left open. -/
def exParams (k : ℝ) : MibuParams :=
  { hop := exHop,
    pre_boil_gravity := 1.05,
    post_boil_gravity := 1.05,
    temp_approach := 7,
    temp_target := 20,
    cooling_coefficient := k,
    boil_time := 60,
    post_boil_volume := 20,
    whirlpool_time := 0,
    surface_area := 900,
    opening_area := none,
    integration_time := 1,
    store_graph := false }

/-! ### C1: stage gate -/

/-- C1: for every Hop whose stage is not BOIL, `ibu` returns exactly 0 with the
graph state untouched, and `ibu_tinseth` returns exactly 0, regardless of all
other parameters and of the iteration budget (so no estimator is invoked). -/
theorem stage_gate_zero (p : MibuParams) (fuel : ℕ) (gr : Graph)
    (pre post vol : ℝ) (h : p.hop.stage ≠ Stage.BOIL) :
    ibu p fuel gr = .ok 0 gr ∧ ibu_tinseth p.hop pre post vol = 0 :=
  ⟨by simp [ibu, h], by simp [ibu_tinseth, h]⟩

/-- Witness for C1 at a concrete mash-stage hop. -/
theorem stage_gate_zero_witness :
    ({ exParams 1 with hop := exHopMash } : MibuParams).hop.stage ≠ Stage.BOIL ∧
    (ibu { exParams 1 with hop := exHopMash } 5 reset_graph = .ok 0 reset_graph ∧
      ibu_tinseth ({ exParams 1 with hop := exHopMash } : MibuParams).hop 1.05 1.06 20 = 0) :=
  ⟨by simp [exHopMash, exHop], stage_gate_zero _ 5 reset_graph 1.05 1.06 20 (by simp [exHopMash, exHop])⟩

/-! ### C6: Tinseth closed form -/

/-- C6: `utilization_tinseth` equals exactly
`(1.65 * 0.000125 ^ ((pre + post)/2 - 1)) * (1 - exp (-0.04 * time)) / 4.15`;
no integration is involved. -/
theorem tinseth_closed_form (h : Hop) (pre post : ℝ) :
    utilization_tinseth h pre post =
      1.65 * (0.000125 : ℝ) ^ ((pre + post) / 2 - 1) *
        ((1 - Real.exp (-0.04 * h.time)) / 4.15) := by
  unfold utilization_tinseth
  rw [Real.exp_one_rpow]
  norm_num

/-! ### C7: bitterness conversion formula -/

/-- C7: for a boil-stage hop, `ibu` maps a returned mIBU utilization `u` to
exactly `u * aa * 1000 * g / post_boil_volume`, and `ibu_tinseth` equals the
same formula applied to the Tinseth utilization. -/
theorem ibu_formula (p : MibuParams) (pre post vol : ℝ)
    (h : p.hop.stage = Stage.BOIL) :
    (∀ fuel gr u g, utilization_mibu p fuel gr = .ok u g →
        ibu p fuel gr =
          .ok (u * p.hop.aa * 1000.0 * p.hop.g / p.post_boil_volume) g) ∧
    ibu_tinseth p.hop pre post vol =
      utilization_tinseth p.hop pre post * p.hop.aa * 1000.0 * p.hop.g / vol := by
  refine ⟨fun fuel gr u g hu => ?_, by simp [ibu_tinseth, h, ibuAux]⟩
  simp [ibu, h, hu, ibuAux]

/-- Witness for C7 at a concrete boil-stage hop. -/
theorem ibu_formula_witness :
    (exParams 1).hop.stage = Stage.BOIL ∧
    ((∀ fuel gr u g, utilization_mibu (exParams 1) fuel gr = .ok u g →
        ibu (exParams 1) fuel gr =
          .ok (u * (exParams 1).hop.aa * 1000.0 * (exParams 1).hop.g /
            (exParams 1).post_boil_volume) g) ∧
      ibu_tinseth (exParams 1).hop 1.05 1.06 20 =
        utilization_tinseth (exParams 1).hop 1.05 1.06 *
          (exParams 1).hop.aa * 1000.0 * (exParams 1).hop.g / 20) :=
  ⟨rfl, ibu_formula (exParams 1) 1.05 1.06 20 rfl⟩

/-! ### C10: cool_time inverts cooling_coefficient -/

/-- C10: for `temp_surround < temp_target < temp_init` and positive `time`,
`cooling_coefficient` succeeds, and feeding its result back into `cool_time`
returns exactly `time` (round-trip identity over exact reals). -/
theorem cool_time_inverse (ts tt ti time : ℝ)
    (h1 : ts < tt) (h2 : tt < ti) (h3 : 0 < time) :
    cooling_coefficientE ts tt time ti = .ok (cooling_coefficient ts tt time ti) ∧
    cool_timeE ts tt (cooling_coefficient ts tt time ti) ti = .ok time := by
  have hg : ¬ tt ≤ ts := not_le.2 h1
  have hnum : 0 < tt - ts := by linarith
  have hden : 0 < ti - ts := by linarith
  have hr1 : (tt - ts) / (ti - ts) < 1 := by rw [div_lt_one hden]; linarith
  have hL : Real.log ((tt - ts) / (ti - ts)) < 0 :=
    Real.log_neg (div_pos hnum hden) hr1
  have hL' : Real.log ((tt - ts) / (ti - ts)) ≠ 0 := ne_of_lt hL
  have htne : time ≠ 0 := ne_of_gt h3
  refine ⟨by simp [cooling_coefficientE, hg], ?_⟩
  simp only [cool_timeE, if_neg hg]
  congr 1
  unfold cool_time cooling_coefficient
  have hk : (1 / -time) * Real.log ((tt - ts) / (ti - ts)) ≠ 0 := by
    refine mul_ne_zero ?_ hL'
    simp [htne]
  rw [div_eq_iff hk]
  field_simp
  rw [div_neg, mul_div_cancel_left₀ _ htne]
  norm_num

/-- Witness for C10 at surround 7 °C, target 20 °C, initial 100 °C, 30 min. -/
theorem cool_time_inverse_witness :
    ((7:ℝ) < 20 ∧ (20:ℝ) < 100 ∧ (0:ℝ) < 30) ∧
    (cooling_coefficientE 7 20 30 100 = .ok (cooling_coefficient 7 20 30 100) ∧
      cool_timeE 7 20 (cooling_coefficient 7 20 30 100) 100 = .ok 30) :=
  ⟨⟨by norm_num, by norm_num, by norm_num⟩,
    cool_time_inverse 7 20 100 30 (by norm_num) (by norm_num) (by norm_num)⟩

/-! ### Helper lemmas about the loop -/

/-- The state produced by the one-time whirlpool boundary update
(hop.py lines 102-105), before the body of that same iteration runs. -/
def mibuExtend (p : MibuParams) (s : MibuState) : MibuState :=
  { s with whirlpool_done := true,
           temp_post_whirlpool := kelvin_to_celsius s.temp_k,
           util_time := s.util_time + cool_time p.temp_approach p.temp_target
             p.cooling_coefficient (kelvin_to_celsius s.temp_k) }

lemma mibuStep_body {p : MibuParams} {s : MibuState}
    (h : ¬ s.util_time ≤ s.t) : mibuStep p s = .next (mibuBody p s) := by
  unfold mibuStep
  rw [if_neg h]

lemma mibuStep_brk {p : MibuParams} {s : MibuState}
    (h1 : s.util_time ≤ s.t) (h2 : s.whirlpool_done = true) :
    mibuStep p s = .brk s := by
  unfold mibuStep
  rw [if_pos h1, if_pos h2]

lemma mibuStep_boundary_err {p : MibuParams} {s : MibuState}
    (h1 : s.util_time ≤ s.t) (h2 : s.whirlpool_done = false)
    (h3 : p.temp_target ≤ p.temp_approach) :
    mibuStep p s =
      .err "Target temperature can not be lower than surrounding temperature" s := by
  unfold mibuStep
  rw [if_pos h1, h2]
  simp only [cool_timeE, if_pos h3, Bool.false_eq_true, if_false]

lemma mibuStep_boundary_ok {p : MibuParams} {s : MibuState}
    (h1 : s.util_time ≤ s.t) (h2 : s.whirlpool_done = false)
    (h3 : ¬ p.temp_target ≤ p.temp_approach) :
    mibuStep p s = .next (mibuBody p (mibuExtend p s)) := by
  unfold mibuStep mibuExtend
  rw [if_pos h1, h2]
  simp only [cool_timeE, cool_time, if_neg h3, Bool.false_eq_true, if_false]

lemma mibuLoop_next {p : MibuParams} {s s' : MibuState} {n : ℕ}
    (h : mibuStep p s = .next s') : mibuLoop p (n + 1) s = mibuLoop p n s' := by
  rw [mibuLoop, h]

lemma mibuLoop_brk {p : MibuParams} {s s' : MibuState} {n : ℕ}
    (h : mibuStep p s = .brk s') :
    mibuLoop p (n + 1) s = .ok s'.u_total (mibuFinish p s').2 := by
  rw [mibuLoop, h]
  rfl

lemma mibuLoop_err {p : MibuParams} {s s' : MibuState} {n : ℕ} {msg : String}
    (h : mibuStep p s = .err msg s') :
    mibuLoop p (n + 1) s = .valueError msg s' := by
  rw [mibuLoop, h]

lemma mibuBody_t (p : MibuParams) (s : MibuState) :
    (mibuBody p s).t = s.t + p.integration_time := rfl

lemma mibuBody_util_time (p : MibuParams) (s : MibuState) :
    (mibuBody p s).util_time = s.util_time := rfl

lemma mibuBody_gravity (p : MibuParams) (s : MibuState) :
    (mibuBody p s).gravity = mibuGravity p s := rfl

lemma mibuBody_temp_k (p : MibuParams) (s : MibuState) :
    (mibuBody p s).temp_k = mibuTemp p s := rfl

lemma mibuBody_tpw (p : MibuParams) (s : MibuState) :
    (mibuBody p s).temp_post_whirlpool = s.temp_post_whirlpool := rfl

lemma mibuBody_u_total (p : MibuParams) (s : MibuState) :
    (mibuBody p s).u_total
      = s.u_total + mibuDU p s * mibuDeg p s * p.integration_time := rfl

lemma mibuBody_whirlpool_done (p : MibuParams) (s : MibuState) :
    (mibuBody p s).whirlpool_done = s.whirlpool_done := rfl

lemma mibuExtend_t (p : MibuParams) (s : MibuState) : (mibuExtend p s).t = s.t := rfl

lemma mibuExtend_u_total (p : MibuParams) (s : MibuState) :
    (mibuExtend p s).u_total = s.u_total := rfl

lemma mibuDU_pos (p : MibuParams) (s : MibuState) : 0 < mibuDU p s := by
  have h : mibuDU p s =
      1.65 * 0.04 * ((0.000125 : ℝ) ^ (mibuGravity p s - 1.0)
        * Real.exp (-0.04 * s.t)) / 4.15 := by
    unfold mibuDU; ring
  rw [h]
  have h1 : (0:ℝ) < (0.000125 : ℝ) ^ (mibuGravity p s - 1.0) :=
    Real.rpow_pos_of_pos (by norm_num) _
  have h2 : (0:ℝ) < Real.exp (-0.04 * s.t) := Real.exp_pos _
  positivity

lemma mibuDeg_pos (p : MibuParams) (s : MibuState) : 0 < mibuDeg p s := by
  unfold mibuDeg
  split
  · norm_num
  · refine lt_min (by norm_num) ?_
    have h1 : (0:ℝ) < (10.0 : ℝ) ^ (11.0 : ℝ) := Real.rpow_pos_of_pos (by norm_num) _
    positivity

lemma mibuDeg_le_one (p : MibuParams) (s : MibuState) : mibuDeg p s ≤ 1 := by
  unfold mibuDeg
  split
  · norm_num
  · exact le_of_le_of_eq (min_le_left _ _) (by norm_num)

lemma mibuContribution_nonneg (p : MibuParams) (s : MibuState)
    (hdt : 0 ≤ p.integration_time) :
    0 ≤ mibuDU p s * mibuDeg p s * p.integration_time :=
  mul_nonneg (mul_nonneg (mibuDU_pos p s).le (mibuDeg_pos p s).le) hdt

lemma mibuBody_u_mono (p : MibuParams) (s : MibuState)
    (hdt : 0 ≤ p.integration_time) : s.u_total ≤ (mibuBody p s).u_total := by
  rw [mibuBody_u_total]
  have := mibuContribution_nonneg p s hdt
  linarith

lemma mibuStep_next_u_mono {p : MibuParams} {s s' : MibuState}
    (hdt : 0 ≤ p.integration_time) (h : mibuStep p s = .next s') :
    s.u_total ≤ s'.u_total := by
  by_cases h1 : s.util_time ≤ s.t
  · cases h2 : s.whirlpool_done with
    | true => rw [mibuStep_brk h1 h2] at h; exact absurd h (by simp)
    | false =>
      by_cases h3 : p.temp_target ≤ p.temp_approach
      · rw [mibuStep_boundary_err h1 h2 h3] at h; exact absurd h (by simp)
      · rw [mibuStep_boundary_ok h1 h2 h3] at h
        have h4 := mibuBody_u_mono p (mibuExtend p s) hdt
        rw [mibuExtend_u_total] at h4
        simp only [StepOut.next.injEq] at h
        rw [← h]
        exact h4
  · rw [mibuStep_body h1] at h
    simp only [StepOut.next.injEq] at h
    rw [← h]
    exact mibuBody_u_mono p s hdt

lemma mibuLoop_ok_u_mono {p : MibuParams} (hdt : 0 ≤ p.integration_time) :
    ∀ fuel (s : MibuState) (u : ℝ) (g : Graph),
      mibuLoop p fuel s = .ok u g → s.u_total ≤ u := by
  intro fuel
  induction fuel with
  | zero => intro s u g h; exact absurd h (by simp [mibuLoop])
  | succ n ih =>
    intro s u g h
    cases hstep : mibuStep p s with
    | next s' =>
      rw [mibuLoop_next hstep] at h
      exact le_trans (mibuStep_next_u_mono hdt hstep) (ih s' u g h)
    | brk s' =>
      rw [mibuLoop_brk hstep] at h
      simp only [MibuResult.ok.injEq] at h
      have hss : s' = s := by
        by_cases h1 : s.util_time ≤ s.t
        · cases h2 : s.whirlpool_done with
          | true => rw [mibuStep_brk h1 h2] at hstep; cases hstep; rfl
          | false =>
            by_cases h3 : p.temp_target ≤ p.temp_approach
            · rw [mibuStep_boundary_err h1 h2 h3] at hstep; cases hstep
            · rw [mibuStep_boundary_ok h1 h2 h3] at hstep; cases hstep
        · rw [mibuStep_body h1] at hstep; cases hstep
      rw [← h.1, hss]
    | err msg s' =>
      rw [mibuLoop_err hstep] at h
      exact absurd h (by simp)

/-! ### C3: per-step contribution is non-negative, accumulation is monotone
and unclamped -/

/-- C3: for positive `integration_time`, every step contribution
`dU * degree_of_utilization * integration_time` is non-negative; the body adds
exactly that contribution to `u_total` (no upper clamp); every loop step is
monotone in `u_total`; and every normally returned utilization is ≥ 0. -/
theorem integrator_monotone (p : MibuParams) (hdt : 0 < p.integration_time) :
    (∀ s : MibuState, 0 ≤ mibuDU p s * mibuDeg p s * p.integration_time) ∧
    (∀ s : MibuState, (mibuBody p s).u_total
        = s.u_total + mibuDU p s * mibuDeg p s * p.integration_time) ∧
    (∀ s s' : MibuState, mibuStep p s = .next s' → s.u_total ≤ s'.u_total) ∧
    (∀ (fuel : ℕ) (gr : Graph) (u : ℝ) (g : Graph),
        utilization_mibu p fuel gr = .ok u g → 0 ≤ u) := by
  refine ⟨fun s => mibuContribution_nonneg p s hdt.le,
    fun s => mibuBody_u_total p s,
    fun s s' h => mibuStep_next_u_mono hdt.le h,
    fun fuel gr u g h => ?_⟩
  have h0 := mibuLoop_ok_u_mono hdt.le fuel (mibuInit p gr) u g h
  simpa [mibuInit] using h0

/-- Witness for C3 at a concrete parameter set with step 1 minute. -/
theorem integrator_monotone_witness :
    (0 < (exParams 1).integration_time) ∧
    ((∀ s : MibuState,
        0 ≤ mibuDU (exParams 1) s * mibuDeg (exParams 1) s * (exParams 1).integration_time) ∧
      (∀ s : MibuState, (mibuBody (exParams 1) s).u_total
          = s.u_total + mibuDU (exParams 1) s * mibuDeg (exParams 1) s * (exParams 1).integration_time) ∧
      (∀ s s' : MibuState, mibuStep (exParams 1) s = .next s' → s.u_total ≤ s'.u_total) ∧
      (∀ (fuel : ℕ) (gr : Graph) (u : ℝ) (g : Graph),
          utilization_mibu (exParams 1) fuel gr = .ok u g → 0 ≤ u)) :=
  ⟨by norm_num [exParams], integrator_monotone (exParams 1) (by norm_num [exParams])⟩

/-! ### C2: what invalid cooling temperatures actually do -/

lemma mibuLoop_not_ok_of_invalid (p : MibuParams)
    (hv : p.temp_target ≤ p.temp_approach) :
    ∀ (fuel : ℕ) (s : MibuState), s.whirlpool_done = false →
      (mibuLoop p fuel s).isOk = false := by
  intro fuel
  induction fuel with
  | zero => intro s h; rfl
  | succ n ih =>
    intro s h
    by_cases h1 : s.util_time ≤ s.t
    · rw [mibuLoop_err (mibuStep_boundary_err h1 h hv)]
      rfl
    · rw [mibuLoop_next (mibuStep_body h1)]
      exact ih _ (by rw [mibuBody_whirlpool_done]; exact h)

/-- C2 (amended): when `temp_target ≤ temp_approach` the caller never receives
a numeric utilization from `utilization_mibu` for any iteration budget — the
run can only end in `cool_time`'s classified `ValueError` (or exhaust its
budget); but the error is raised at the whirlpool-to-forced-cooling boundary,
not before integration steps run (see the counterexample). -/
theorem invalid_temps_never_ok (p : MibuParams)
    (hv : p.temp_target ≤ p.temp_approach) :
    ∀ (fuel : ℕ) (gr : Graph), (utilization_mibu p fuel gr).isOk = false :=
  fun fuel gr => mibuLoop_not_ok_of_invalid p hv fuel (mibuInit p gr) rfl

/-- A concrete call with `temp_target = 7 ≤ 20 = temp_approach`, a one-minute
addition and a one-minute integration step. -/
def c2P : MibuParams :=
  { hop := { stage := Stage.BOIL, name := "", g := 10, time := 1, aa := 0.1 },
    pre_boil_gravity := 1.04,
    post_boil_gravity := 1.05,
    temp_approach := 20,
    temp_target := 7,
    cooling_coefficient := 1,
    boil_time := 60,
    post_boil_volume := 20,
    whirlpool_time := 0,
    surface_area := 900,
    opening_area := none,
    integration_time := 1,
    store_graph := false }

/-- Counterexample to C2 as stated: on `c2P` the `ValueError` is raised at
elapsed addition time `t = 1`, i.e. after one full integration step has run,
not before any integration step. -/
theorem invalid_temps_counterexample :
    (utilization_mibu c2P 5 reset_graph).errTime = some 1 ∧ (1 : ℝ) ≠ 0 := by
  refine ⟨?_, by norm_num⟩
  have h0 : ¬ (mibuInit c2P reset_graph).util_time ≤ (mibuInit c2P reset_graph).t := by
    show ¬ ((1:ℝ) + 0 ≤ 0)
    norm_num
  have e1 : utilization_mibu c2P 5 reset_graph
      = mibuLoop c2P 4 (mibuBody c2P (mibuInit c2P reset_graph)) := by
    rw [utilization_mibu, show (5:ℕ) = 4 + 1 from rfl,
      mibuLoop_next (mibuStep_body h0)]
  have h1 : (mibuBody c2P (mibuInit c2P reset_graph)).util_time
      ≤ (mibuBody c2P (mibuInit c2P reset_graph)).t := by
    rw [mibuBody_util_time, mibuBody_t]
    show (1:ℝ) + 0 ≤ 0 + 1
    norm_num
  have h2 : (mibuBody c2P (mibuInit c2P reset_graph)).whirlpool_done = false := rfl
  have h3 : c2P.temp_target ≤ c2P.temp_approach := by
    show (7:ℝ) ≤ 20
    norm_num
  rw [e1, show (4:ℕ) = 3 + 1 from rfl,
    mibuLoop_err (mibuStep_boundary_err h1 h2 h3)]
  show some ((mibuBody c2P (mibuInit c2P reset_graph)).t) = some 1
  rw [mibuBody_t]
  show some ((0:ℝ) + 1) = some 1
  norm_num

/-- Witness for the amended C2 at the concrete invalid input `c2P`. -/
theorem invalid_temps_never_ok_witness :
    c2P.temp_target ≤ c2P.temp_approach ∧
    ∀ (fuel : ℕ) (gr : Graph), (utilization_mibu c2P fuel gr).isOk = false :=
  ⟨by show (7:ℝ) ≤ 20; norm_num,
    invalid_temps_never_ok c2P (by show (7:ℝ) ≤ 20; norm_num)⟩

/-! ### C4: gravity after the boil ends -/

/-- A one-minute boil with a full-length addition: the single boil-phase step
freezes `gravity` at the pre-boil value 1.01, not at `post_boil_gravity`. -/
def c4P : MibuParams :=
  { hop := { stage := Stage.BOIL, name := "", g := 10, time := 1, aa := 0.1 },
    pre_boil_gravity := 1.01,
    post_boil_gravity := 1.04,
    temp_approach := 7,
    temp_target := 20,
    cooling_coefficient := 1,
    boil_time := 1,
    post_boil_volume := 10,
    whirlpool_time := 0,
    surface_area := 900,
    opening_area := none,
    integration_time := 1,
    store_graph := false }

/-- Counterexample to C4 as stated: on `c4P`, at the loop state reached after
one iteration the elapsed time `t = 1` is past the boil end (`self.time = 1`),
yet the gravity used by the step is 1.01 (the last boil-phase value), not
`post_boil_gravity = 1.04`. -/
theorem gravity_frozen_counterexample :
    c4P.hop.time ≤ (mibuIter c4P reset_graph 1).t ∧
    mibuGravity c4P (mibuIter c4P reset_graph 1) ≠ c4P.post_boil_gravity := by
  have h0 : ¬ (mibuInit c4P reset_graph).util_time ≤ (mibuInit c4P reset_graph).t := by
    show ¬ ((1:ℝ) + 0 ≤ 0)
    norm_num
  have e1 : mibuIter c4P reset_graph 1 = mibuBody c4P (mibuInit c4P reset_graph) := by
    show mibuNext c4P (mibuIter c4P reset_graph 0) = _
    rw [show mibuIter c4P reset_graph 0 = mibuInit c4P reset_graph from rfl,
      mibuNext, mibuStep_body h0]
  constructor
  · rw [e1, mibuBody_t]
    show (1:ℝ) ≤ 0 + 1
    norm_num
  · rw [e1]
    have ht : ¬ (mibuBody c4P (mibuInit c4P reset_graph)).t < c4P.hop.time := by
      rw [mibuBody_t]
      show ¬ ((0:ℝ) + 1 < 1)
      norm_num
    rw [mibuGravity, if_neg ht, mibuBody_gravity, mibuGravity,
      if_pos (show (mibuInit c4P reset_graph).t < c4P.hop.time from by
        show (0:ℝ) < 1; norm_num)]
    norm_num [mibuInit, c4P, MibuParams.kExtract, MibuParams.preBoilVolume,
      MibuParams.boilOffRate, MibuParams.addTime, Real.rpow_one]

/-- C4 (amended): once the boil has ended for the addition (`t ≥ self.time`),
the gravity used by the step is the frozen value of the `gravity` loop
variable, and the body leaves that variable unchanged; it is not recomputed
(and in general differs from `post_boil_gravity`, see the counterexample). -/
theorem gravity_frozen_after_boil (p : MibuParams) (s : MibuState)
    (h : p.hop.time ≤ s.t) :
    mibuGravity p s = s.gravity ∧ (mibuBody p s).gravity = s.gravity := by
  have h1 : ¬ s.t < p.hop.time := not_lt.2 h
  exact ⟨by rw [mibuGravity, if_neg h1],
    by rw [mibuBody_gravity, mibuGravity, if_neg h1]⟩

/-- Witness for the amended C4 at a flameout addition (boil time 0). -/
theorem gravity_frozen_after_boil_witness :
    (exParams 1).hop.time ≤ (mibuInit (exParams 1) reset_graph).t ∧
    (mibuGravity (exParams 1) (mibuInit (exParams 1) reset_graph)
        = (mibuInit (exParams 1) reset_graph).gravity ∧
      (mibuBody (exParams 1) (mibuInit (exParams 1) reset_graph)).gravity
        = (mibuInit (exParams 1) reset_graph).gravity) :=
  ⟨by show (0:ℝ) ≤ 0; norm_num,
    gravity_frozen_after_boil _ _ (by show (0:ℝ) ≤ 0; norm_num)⟩

/-! ### C8: graph recording does not affect the returned utilization -/

/-- Erase the graph component of a loop state. -/
def stripG (s : MibuState) : MibuState :=
  { s with graph := reset_graph }

lemma stripG_eq_t {s1 s2 : MibuState} (h : stripG s1 = stripG s2) : s1.t = s2.t := by
  have h2 := congrArg MibuState.t h
  exact h2

lemma stripG_eq_util_time {s1 s2 : MibuState} (h : stripG s1 = stripG s2) :
    s1.util_time = s2.util_time := by
  have h2 := congrArg MibuState.util_time h
  exact h2

lemma stripG_eq_gravity {s1 s2 : MibuState} (h : stripG s1 = stripG s2) :
    s1.gravity = s2.gravity := by
  have h2 := congrArg MibuState.gravity h
  exact h2

lemma stripG_eq_temp_k {s1 s2 : MibuState} (h : stripG s1 = stripG s2) :
    s1.temp_k = s2.temp_k := by
  have h2 := congrArg MibuState.temp_k h
  exact h2

lemma stripG_eq_tpw {s1 s2 : MibuState} (h : stripG s1 = stripG s2) :
    s1.temp_post_whirlpool = s2.temp_post_whirlpool := by
  have h2 := congrArg MibuState.temp_post_whirlpool h
  exact h2

lemma stripG_eq_u_total {s1 s2 : MibuState} (h : stripG s1 = stripG s2) :
    s1.u_total = s2.u_total := by
  have h2 := congrArg MibuState.u_total h
  exact h2

lemma stripG_eq_whirlpool_done {s1 s2 : MibuState} (h : stripG s1 = stripG s2) :
    s1.whirlpool_done = s2.whirlpool_done := by
  have h2 := congrArg MibuState.whirlpool_done h
  exact h2

lemma strip_body (p : MibuParams) {s1 s2 : MibuState} (h : stripG s1 = stripG s2) :
    stripG (mibuBody { p with store_graph := true } s1)
      = stripG (mibuBody { p with store_graph := false } s2) := by
  have ht := stripG_eq_t h
  have hg := stripG_eq_gravity h
  have htk := stripG_eq_temp_k h
  have htpw := stripG_eq_tpw h
  have hut := stripG_eq_util_time h
  have hu := stripG_eq_u_total h
  have hw := stripG_eq_whirlpool_done h
  have hgr : mibuGravity { p with store_graph := true } s1
      = mibuGravity { p with store_graph := false } s2 := by
    unfold mibuGravity
    rw [ht, hg]
    rfl
  have htm : mibuTemp { p with store_graph := true } s1
      = mibuTemp { p with store_graph := false } s2 := by
    unfold mibuTemp
    rw [ht, htk, htpw]
    rfl
  have hdu : mibuDU { p with store_graph := true } s1
      = mibuDU { p with store_graph := false } s2 := by
    unfold mibuDU
    rw [hgr, ht]
  have hdeg : mibuDeg { p with store_graph := true } s1
      = mibuDeg { p with store_graph := false } s2 := by
    unfold mibuDeg
    rw [htm, ht]
  unfold stripG mibuBody
  rw [ht, hut, htpw, hu, hw, hgr, htm, hdu, hdeg]

lemma strip_extend (p : MibuParams) {s1 s2 : MibuState} (h : stripG s1 = stripG s2) :
    stripG (mibuExtend { p with store_graph := true } s1)
      = stripG (mibuExtend { p with store_graph := false } s2) := by
  have ht := stripG_eq_t h
  have hg := stripG_eq_gravity h
  have htk := stripG_eq_temp_k h
  have hut := stripG_eq_util_time h
  have hu := stripG_eq_u_total h
  unfold stripG mibuExtend
  rw [ht, hg, htk, hut, hu]

lemma strip_loop (p : MibuParams) :
    ∀ (fuel : ℕ) (s1 s2 : MibuState), stripG s1 = stripG s2 →
      (mibuLoop { p with store_graph := true } fuel s1).value
        = (mibuLoop { p with store_graph := false } fuel s2).value := by
  intro fuel
  induction fuel with
  | zero => intro s1 s2 h; rfl
  | succ n ih =>
    intro s1 s2 h
    have ht := stripG_eq_t h
    have hut := stripG_eq_util_time h
    have hu := stripG_eq_u_total h
    have hw := stripG_eq_whirlpool_done h
    by_cases h1 : s1.util_time ≤ s1.t
    · have h1' : s2.util_time ≤ s2.t := by rw [← ht, ← hut]; exact h1
      cases h2 : s1.whirlpool_done with
      | true =>
        have h2' : s2.whirlpool_done = true := by rw [← hw]; exact h2
        rw [mibuLoop_brk (mibuStep_brk h1 h2), mibuLoop_brk (mibuStep_brk h1' h2')]
        simp only [MibuResult.value, hu]
      | false =>
        have h2' : s2.whirlpool_done = false := by rw [← hw]; exact h2
        by_cases h3 : p.temp_target ≤ p.temp_approach
        · have h3T : ({ p with store_graph := true } : MibuParams).temp_target
              ≤ ({ p with store_graph := true } : MibuParams).temp_approach := h3
          have h3F : ({ p with store_graph := false } : MibuParams).temp_target
              ≤ ({ p with store_graph := false } : MibuParams).temp_approach := h3
          rw [mibuLoop_err (mibuStep_boundary_err h1 h2 h3T),
            mibuLoop_err (mibuStep_boundary_err h1' h2' h3F)]
          rfl
        · have h3T : ¬ ({ p with store_graph := true } : MibuParams).temp_target
              ≤ ({ p with store_graph := true } : MibuParams).temp_approach := h3
          have h3F : ¬ ({ p with store_graph := false } : MibuParams).temp_target
              ≤ ({ p with store_graph := false } : MibuParams).temp_approach := h3
          rw [mibuLoop_next (mibuStep_boundary_ok h1 h2 h3T),
            mibuLoop_next (mibuStep_boundary_ok h1' h2' h3F)]
          exact ih _ _ (strip_body p (strip_extend p h))
    · have h1' : ¬ s2.util_time ≤ s2.t := by rw [← ht, ← hut]; exact h1
      rw [mibuLoop_next (mibuStep_body h1), mibuLoop_next (mibuStep_body h1')]
      exact ih _ _ (strip_body p h)

/-- C8: the returned utilization of `utilization_mibu` is identical whether
`store_graph` is true or false, for every input and iteration budget:
recording the trace has no effect on the result (also when the run ends in an
error or runs out of budget, where neither run returns a value). -/
theorem store_graph_no_effect (p : MibuParams) (fuel : ℕ) (gr : Graph) :
    (utilization_mibu { p with store_graph := true } fuel gr).value
      = (utilization_mibu { p with store_graph := false } fuel gr).value := by
  unfold utilization_mibu
  apply strip_loop
  rfl

/-! ### C9: the loop terminates, with a bounded number of iterations -/

lemma mibuExtend_whirlpool_done (p : MibuParams) (s : MibuState) :
    (mibuExtend p s).whirlpool_done = true := rfl

lemma mibuExtend_util_time (p : MibuParams) (s : MibuState) :
    (mibuExtend p s).util_time = s.util_time + cool_time p.temp_approach
      p.temp_target p.cooling_coefficient (kelvin_to_celsius s.temp_k) := rfl

lemma mibuLoop_isOk_mono {p : MibuParams} :
    ∀ (f f' : ℕ) (s : MibuState), f ≤ f' →
      (mibuLoop p f s).isOk = true → (mibuLoop p f' s).isOk = true := by
  intro f
  induction f with
  | zero =>
    intro f' s hf hok
    exact absurd hok (by simp [mibuLoop, MibuResult.isOk])
  | succ n ih =>
    intro f' s hf hok
    obtain ⟨m, rfl⟩ : ∃ m, f' = m + 1 := ⟨f' - 1, by omega⟩
    cases hstep : mibuStep p s with
    | next s' =>
      rw [mibuLoop_next hstep] at hok
      rw [mibuLoop_next hstep]
      exact ih m s' (by omega) hok
    | brk s' =>
      rw [mibuLoop_brk hstep]
      rfl
    | err msg s' =>
      rw [mibuLoop_err hstep] at hok
      exact absurd hok (by simp [MibuResult.isOk])

lemma mibuLoop_post_term (p : MibuParams) :
    ∀ (n : ℕ) (s : MibuState), s.whirlpool_done = true →
      s.util_time ≤ s.t + (n : ℝ) * p.integration_time →
      (mibuLoop p (n + 1) s).isOk = true := by
  intro n
  induction n with
  | zero =>
    intro s hw hb
    have h1 : s.util_time ≤ s.t := by simpa using hb
    rw [mibuLoop_brk (mibuStep_brk h1 hw)]
    rfl
  | succ n ih =>
    intro s hw hb
    by_cases h1 : s.util_time ≤ s.t
    · rw [mibuLoop_brk (mibuStep_brk h1 hw)]
      rfl
    · rw [mibuLoop_next (mibuStep_body h1)]
      refine ih (mibuBody p s) (by rw [mibuBody_whirlpool_done]; exact hw) ?_
      rw [mibuBody_util_time, mibuBody_t]
      have harith : s.t + ((n : ℝ) + 1) * p.integration_time
          = s.t + p.integration_time + (n : ℝ) * p.integration_time := by ring
      calc s.util_time ≤ s.t + ((n : ℝ) + 1) * p.integration_time := by
            have hcast : ((n + 1 : ℕ) : ℝ) = (n : ℝ) + 1 := by push_cast; ring
            rw [hcast] at hb
            exact hb
        _ = s.t + p.integration_time + (n : ℝ) * p.integration_time := harith

/-- Loop invariant before the whirlpool boundary is crossed: `util_time`
still holds its initial value, and the temperature lies in (319.55, 373.15]
Kelvin (hence whirlpool-end temperature is in (46.4, 100] Celsius). -/
def MibuInv (p : MibuParams) (s : MibuState) : Prop :=
  s.util_time = p.hop.time + p.whirlpool_time ∧
    319.55 < s.temp_k ∧ s.temp_k ≤ 373.15

lemma mibuInv_init (p : MibuParams) (gr : Graph) : MibuInv p (mibuInit p gr) := by
  refine ⟨rfl, ?_, ?_⟩
  · show (319.55 : ℝ) < celsius_to_kelvin 100
    unfold celsius_to_kelvin
    norm_num
  · show celsius_to_kelvin 100 ≤ (373.15 : ℝ)
    unfold celsius_to_kelvin
    norm_num

lemma mibuInv_body (p : MibuParams) {s : MibuState}
    (hvol : 0 < p.post_boil_volume)
    (hnb : ¬ s.util_time ≤ s.t) (hInv : MibuInv p s) :
    MibuInv p (mibuBody p s) := by
  obtain ⟨h1, h2, h3⟩ := hInv
  refine ⟨by rw [mibuBody_util_time]; exact h1, ?_⟩
  rw [mibuBody_temp_k]
  unfold mibuTemp
  by_cases hb1 : s.t < p.hop.time
  · rw [if_pos hb1]
    exact ⟨h2, h3⟩
  · have hb2 : s.t < p.hop.time + p.whirlpool_time := by
      rw [h1] at hnb
      push_neg at hnb
      exact hnb
    rw [if_neg hb1, if_pos hb2]
    have hbpos : 0 < 0.0002925 * Real.sqrt (p.surface_area * p.openingArea)
        / p.post_boil_volume + 0.00538 := by
      have hs : (0:ℝ) ≤ Real.sqrt (p.surface_area * p.openingArea) := Real.sqrt_nonneg _
      have : (0:ℝ) ≤ 0.0002925 * Real.sqrt (p.surface_area * p.openingArea)
          / p.post_boil_volume := by positivity
      linarith
    have harg : -1.0 * (0.0002925 * Real.sqrt (p.surface_area * p.openingArea)
        / p.post_boil_volume + 0.00538) * (s.t - p.hop.time) ≤ 0 := by
      have hts : 0 ≤ s.t - p.hop.time := by
        push_neg at hb1
        linarith
      nlinarith
    have hexp1 : Real.exp (-1.0 * (0.0002925 * Real.sqrt (p.surface_area * p.openingArea)
        / p.post_boil_volume + 0.00538) * (s.t - p.hop.time)) ≤ 1 := by
      rw [← Real.exp_zero]
      exact Real.exp_le_exp.2 harg
    have hexp0 : 0 < Real.exp (-1.0 * (0.0002925 * Real.sqrt (p.surface_area * p.openingArea)
        / p.post_boil_volume + 0.00538) * (s.t - p.hop.time)) := Real.exp_pos _
    constructor
    · nlinarith
    · nlinarith

lemma cool_time_mono_init {a t k x y : ℝ}
    (hat : a < t) (hax : a < x) (hxy : x ≤ y) (hk : 0 < k) :
    cool_time a t k x ≤ cool_time a t k y := by
  unfold cool_time
  have h1 : 0 < t - a := by linarith
  have h2 : 0 < x - a := by linarith
  have h3 : 0 < y - a := by linarith
  have h4 : (t - a) / (y - a) ≤ (t - a) / (x - a) :=
    div_le_div_of_nonneg_left h1.le h2 (by linarith)
  have h5 : Real.log ((t - a) / (y - a)) ≤ Real.log ((t - a) / (x - a)) :=
    Real.log_le_log (by positivity) h4
  have h6 : -1.0 * Real.log ((t - a) / (x - a))
      ≤ -1.0 * Real.log ((t - a) / (y - a)) := by nlinarith
  exact div_le_div_of_nonneg_right h6 hk.le

lemma mibuLoop_boundary_term (p : MibuParams)
    (hdt : 0 < p.integration_time) (hk : 0 < p.cooling_coefficient)
    (hat : p.temp_approach < p.temp_target) (ht46 : p.temp_target < 46.4)
    (m : ℕ) (s : MibuState) (hw : s.whirlpool_done = false)
    (hInv : MibuInv p s) (h1 : s.util_time ≤ s.t)
    (hm : cool_time p.temp_approach p.temp_target p.cooling_coefficient 100
      ≤ (m : ℝ) * p.integration_time) :
    (mibuLoop p (m + 2) s).isOk = true := by
  have h3 : ¬ p.temp_target ≤ p.temp_approach := not_le.2 hat
  rw [show m + 2 = (m + 1) + 1 from rfl,
    mibuLoop_next (mibuStep_boundary_ok h1 hw h3)]
  refine mibuLoop_post_term p m (mibuBody p (mibuExtend p s)) ?_ ?_
  · rw [mibuBody_whirlpool_done, mibuExtend_whirlpool_done]
  · rw [mibuBody_util_time, mibuBody_t, mibuExtend_util_time, mibuExtend_t]
    have htpw2 : kelvin_to_celsius s.temp_k ≤ 100 := by
      unfold kelvin_to_celsius
      linarith [hInv.2.2]
    have hax : p.temp_approach < kelvin_to_celsius s.temp_k := by
      unfold kelvin_to_celsius
      linarith [hInv.2.1]
    have hct : cool_time p.temp_approach p.temp_target p.cooling_coefficient
        (kelvin_to_celsius s.temp_k)
        ≤ cool_time p.temp_approach p.temp_target p.cooling_coefficient 100 :=
      cool_time_mono_init hat hax htpw2 hk
    linarith

lemma mibuLoop_pre_term (p : MibuParams)
    (hdt : 0 < p.integration_time) (hk : 0 < p.cooling_coefficient)
    (hat : p.temp_approach < p.temp_target) (ht46 : p.temp_target < 46.4)
    (hvol : 0 < p.post_boil_volume) :
    ∀ (n m : ℕ) (s : MibuState), s.whirlpool_done = false → MibuInv p s →
      s.util_time ≤ s.t + (n : ℝ) * p.integration_time →
      cool_time p.temp_approach p.temp_target p.cooling_coefficient 100
        ≤ (m : ℝ) * p.integration_time →
      (mibuLoop p (n + m + 2) s).isOk = true := by
  intro n
  induction n with
  | zero =>
    intro m s hw hInv hb hm
    have h1 : s.util_time ≤ s.t := by simpa using hb
    rw [show 0 + m + 2 = m + 2 from by omega]
    exact mibuLoop_boundary_term p hdt hk hat ht46 m s hw hInv h1 hm
  | succ n ih =>
    intro m s hw hInv hb hm
    by_cases h1 : s.util_time ≤ s.t
    · exact mibuLoop_isOk_mono (m + 2) (n + 1 + m + 2) s (by omega)
        (mibuLoop_boundary_term p hdt hk hat ht46 m s hw hInv h1 hm)
    · rw [show n + 1 + m + 2 = (n + m + 2) + 1 from by omega,
        mibuLoop_next (mibuStep_body h1)]
      refine ih m (mibuBody p s) (by rw [mibuBody_whirlpool_done]; exact hw)
        (mibuInv_body p hvol h1 hInv) ?_ hm
      rw [mibuBody_util_time, mibuBody_t]
      have hcast : ((n + 1 : ℕ) : ℝ) = (n : ℝ) + 1 := by push_cast; ring
      rw [hcast] at hb
      nlinarith

lemma cool_time_from_boiling_pos (p : MibuParams)
    (hk : 0 < p.cooling_coefficient)
    (hat : p.temp_approach < p.temp_target) (ht46 : p.temp_target < 46.4) :
    0 < cool_time p.temp_approach p.temp_target p.cooling_coefficient 100 := by
  have h1 : 0 < p.temp_target - p.temp_approach := by linarith
  have h2 : 0 < 100 - p.temp_approach := by linarith
  have hr1 : (p.temp_target - p.temp_approach) / (100 - p.temp_approach) < 1 := by
    rw [div_lt_one h2]
    linarith
  have hlog : Real.log ((p.temp_target - p.temp_approach) / (100 - p.temp_approach)) < 0 :=
    Real.log_neg (div_pos h1 h2) hr1
  unfold cool_time
  have hnum : 0 < -1.0 * Real.log ((p.temp_target - p.temp_approach)
      / (100 - p.temp_approach)) := by nlinarith
  exact div_pos hnum hk

/-- C9: for valid inputs (positive step, positive cooling coefficient,
approach < target < 46.4 °C — the whirlpool-end temperature always exceeds
46.4 °C, so this makes it exceed both target and approach — positive volume,
non-negative schedule) the loop terminates normally; `util_time` is changed
by a step only at the single false-to-true flip of `whirlpool_done` (the
one-time `cool_time` extension), and any iteration budget of at least
`(self.time + whirlpool_time + cool_time(approach, target, k, 100)) / Δt + 4`
suffices, where the cool time from 100 °C bounds the actual extension. -/
theorem loop_terminates (p : MibuParams)
    (hdt : 0 < p.integration_time) (hk : 0 < p.cooling_coefficient)
    (hat : p.temp_approach < p.temp_target) (ht46 : p.temp_target < 46.4)
    (hvol : 0 < p.post_boil_volume) (htw : 0 ≤ p.hop.time + p.whirlpool_time) :
    (∀ s s' : MibuState, mibuStep p s = .next s' → s.whirlpool_done = true →
        s'.whirlpool_done = true ∧ s'.util_time = s.util_time) ∧
    (∀ s s' : MibuState, mibuStep p s = .next s' → s'.util_time ≠ s.util_time →
        s.whirlpool_done = false ∧ s'.whirlpool_done = true) ∧
    (∀ (gr : Graph) (fuel : ℕ),
        (p.hop.time + p.whirlpool_time
            + cool_time p.temp_approach p.temp_target p.cooling_coefficient 100)
          / p.integration_time + 4 ≤ (fuel : ℝ) →
        (utilization_mibu p fuel gr).isOk = true) := by
  refine ⟨?_, ?_, ?_⟩
  · intro s s' hstep hw
    by_cases h1 : s.util_time ≤ s.t
    · rw [mibuStep_brk h1 hw] at hstep
      exact absurd hstep (by simp)
    · rw [mibuStep_body h1] at hstep
      simp only [StepOut.next.injEq] at hstep
      rw [← hstep]
      exact ⟨by rw [mibuBody_whirlpool_done]; exact hw, mibuBody_util_time p s⟩
  · intro s s' hstep hne
    by_cases h1 : s.util_time ≤ s.t
    · cases h2 : s.whirlpool_done with
      | true =>
        rw [mibuStep_brk h1 h2] at hstep
        exact absurd hstep (by simp)
      | false =>
        by_cases h3 : p.temp_target ≤ p.temp_approach
        · rw [mibuStep_boundary_err h1 h2 h3] at hstep
          exact absurd hstep (by simp)
        · rw [mibuStep_boundary_ok h1 h2 h3] at hstep
          simp only [StepOut.next.injEq] at hstep
          refine ⟨rfl, ?_⟩
          rw [← hstep]
          rw [mibuBody_whirlpool_done, mibuExtend_whirlpool_done]
    · rw [mibuStep_body h1] at hstep
      simp only [StepOut.next.injEq] at hstep
      exact absurd (by rw [← hstep, mibuBody_util_time]) hne
  · intro gr fuel hfuel
    have hC := cool_time_from_boiling_pos p hk hat ht46
    have hn : p.hop.time + p.whirlpool_time
        ≤ ((⌈(p.hop.time + p.whirlpool_time) / p.integration_time⌉₊ : ℝ))
          * p.integration_time :=
      (div_le_iff₀ hdt).1 (Nat.le_ceil _)
    have hm : cool_time p.temp_approach p.temp_target p.cooling_coefficient 100
        ≤ ((⌈cool_time p.temp_approach p.temp_target p.cooling_coefficient 100
            / p.integration_time⌉₊ : ℝ)) * p.integration_time :=
      (div_le_iff₀ hdt).1 (Nat.le_ceil _)
    have hok : (mibuLoop p
        (⌈(p.hop.time + p.whirlpool_time) / p.integration_time⌉₊
          + ⌈cool_time p.temp_approach p.temp_target p.cooling_coefficient 100
              / p.integration_time⌉₊ + 2) (mibuInit p gr)).isOk = true := by
      refine mibuLoop_pre_term p hdt hk hat ht46 hvol _ _ (mibuInit p gr) rfl
        (mibuInv_init p gr) ?_ hm
      show p.hop.time + p.whirlpool_time ≤ 0 + _ * p.integration_time
      rw [zero_add]
      exact hn
    refine mibuLoop_isOk_mono _ fuel _ ?_ hok
    have h1 : ((⌈(p.hop.time + p.whirlpool_time) / p.integration_time⌉₊ : ℝ))
        < (p.hop.time + p.whirlpool_time) / p.integration_time + 1 :=
      Nat.ceil_lt_add_one (by positivity)
    have h2 : ((⌈cool_time p.temp_approach p.temp_target p.cooling_coefficient 100
        / p.integration_time⌉₊ : ℝ))
        < cool_time p.temp_approach p.temp_target p.cooling_coefficient 100
          / p.integration_time + 1 :=
      Nat.ceil_lt_add_one (by positivity)
    have hsplit : (p.hop.time + p.whirlpool_time
        + cool_time p.temp_approach p.temp_target p.cooling_coefficient 100)
          / p.integration_time
        = (p.hop.time + p.whirlpool_time) / p.integration_time
          + cool_time p.temp_approach p.temp_target p.cooling_coefficient 100
            / p.integration_time := by
      rw [div_add_div_same]
    rw [hsplit] at hfuel
    have hlt : ((⌈(p.hop.time + p.whirlpool_time) / p.integration_time⌉₊
        + ⌈cool_time p.temp_approach p.temp_target p.cooling_coefficient 100
            / p.integration_time⌉₊ + 2 : ℕ) : ℝ) < (fuel : ℝ) := by
      push_cast
      linarith
    exact le_of_lt (Nat.cast_lt.1 hlt)

/-- Witness for C9 at a concrete valid parameter set. -/
theorem loop_terminates_witness :
    (0 < (exParams 2).integration_time ∧ 0 < (exParams 2).cooling_coefficient ∧
      (exParams 2).temp_approach < (exParams 2).temp_target ∧
      (exParams 2).temp_target < 46.4 ∧ 0 < (exParams 2).post_boil_volume ∧
      0 ≤ (exParams 2).hop.time + (exParams 2).whirlpool_time) ∧
    ((∀ s s' : MibuState, mibuStep (exParams 2) s = .next s' →
        s.whirlpool_done = true →
        s'.whirlpool_done = true ∧ s'.util_time = s.util_time) ∧
      (∀ s s' : MibuState, mibuStep (exParams 2) s = .next s' →
        s'.util_time ≠ s.util_time →
        s.whirlpool_done = false ∧ s'.whirlpool_done = true) ∧
      (∀ (gr : Graph) (fuel : ℕ),
        ((exParams 2).hop.time + (exParams 2).whirlpool_time
            + cool_time (exParams 2).temp_approach (exParams 2).temp_target
                (exParams 2).cooling_coefficient 100)
          / (exParams 2).integration_time + 4 ≤ (fuel : ℝ) →
        (utilization_mibu (exParams 2) fuel gr).isOk = true)) :=
  ⟨⟨by show (0:ℝ) < 1; norm_num, by show (0:ℝ) < 2; norm_num,
      by show (7:ℝ) < 20; norm_num, by show (20:ℝ) < 46.4; norm_num,
      by show (0:ℝ) < 20; norm_num, by show (0:ℝ) ≤ 0 + 0; norm_num⟩,
    loop_terminates (exParams 2) (by show (0:ℝ) < 1; norm_num)
      (by show (0:ℝ) < 2; norm_num) (by show (7:ℝ) < 20; norm_num)
      (by show (20:ℝ) < 46.4; norm_num) (by show (0:ℝ) < 20; norm_num)
      (by show (0:ℝ) ≤ 0 + 0; norm_num)⟩

/-! ### C5: faster forced cooling never increases utilization -/

lemma mibuTemp_post (p : MibuParams) {s : MibuState}
    (h2 : ¬ s.t < p.hop.time) (h : ¬ s.t < p.hop.time + p.whirlpool_time) :
    mibuTemp p s = celsius_to_kelvin ((s.temp_post_whirlpool - p.temp_approach) *
      Real.exp (-1.0 * p.cooling_coefficient * (s.t - p.whirlpool_time - p.hop.time))
      + p.temp_approach) := by
  unfold mibuTemp
  rw [if_neg h2, if_neg h]

lemma mibuTemp_pre (p : MibuParams) {s : MibuState}
    (h : s.t < p.hop.time + p.whirlpool_time) :
    mibuTemp p s = if s.t < p.hop.time then s.temp_k else
      53.6 * Real.exp (-1.0 *
        (0.0002925 * Real.sqrt (p.surface_area * p.openingArea) / p.post_boil_volume
          + 0.00538) * (s.t - p.hop.time)) + 319.55 := by
  unfold mibuTemp
  by_cases hb : s.t < p.hop.time
  · rw [if_pos hb, if_pos hb]
  · rw [if_neg hb, if_neg hb, if_pos h]

lemma forced_temp_le {tpw a k1 k2 x : ℝ}
    (htpw : a < tpw) (hx : 0 ≤ x) (hk12 : k1 ≤ k2) :
    celsius_to_kelvin ((tpw - a) * Real.exp (-1.0 * k2 * x) + a)
      ≤ celsius_to_kelvin ((tpw - a) * Real.exp (-1.0 * k1 * x) + a) := by
  unfold celsius_to_kelvin
  have hexp : Real.exp (-1.0 * k2 * x) ≤ Real.exp (-1.0 * k1 * x) :=
    Real.exp_le_exp.2 (by nlinarith)
  nlinarith [hexp]

lemma forced_temp_pos {tpw a k x : ℝ} (htpw : a < tpw) (ha : -273.15 < a) :
    0 < celsius_to_kelvin ((tpw - a) * Real.exp (-1.0 * k * x) + a) := by
  unfold celsius_to_kelvin
  have h1 : 0 ≤ (tpw - a) * Real.exp (-1.0 * k * x) :=
    mul_nonneg (by linarith) (Real.exp_pos _).le
  linarith

lemma cool_time_anti_k {a t k1 k2 x : ℝ}
    (hat : a < t) (htx : t < x) (hk1 : 0 < k1) (hk12 : k1 ≤ k2) :
    cool_time a t k2 x ≤ cool_time a t k1 x := by
  unfold cool_time
  have hr : 0 < (t - a) / (x - a) := div_pos (by linarith) (by linarith)
  have hr1 : (t - a) / (x - a) < 1 := by
    rw [div_lt_one (by linarith)]
    linarith
  have hlog : Real.log ((t - a) / (x - a)) < 0 := Real.log_neg hr hr1
  have hnum : 0 ≤ -1.0 * Real.log ((t - a) / (x - a)) := by nlinarith
  exact div_le_div_of_nonneg_left hnum hk1 hk12

/-- Coupling relation between the states of two runs that differ only in the
forced-cooling coefficient, after both have crossed the whirlpool boundary:
run 2 (the faster-cooled one) shares the clock, frozen gravity and recorded
whirlpool-end temperature with run 1, but has an earlier deadline and no
more accumulated utilization. -/
def PostR (p : MibuParams) (s1 s2 : MibuState) : Prop :=
  s1.whirlpool_done = true ∧ s2.whirlpool_done = true ∧
  s1.t = s2.t ∧ s1.gravity = s2.gravity ∧
  s1.temp_post_whirlpool = s2.temp_post_whirlpool ∧
  p.hop.time + p.whirlpool_time ≤ s2.t ∧
  p.temp_approach < s2.temp_post_whirlpool ∧
  s2.util_time ≤ s1.util_time ∧ s2.u_total ≤ s1.u_total

lemma postR_body (p : MibuParams) (k1 k2 : ℝ)
    (hdt : 0 ≤ p.integration_time) (hwh : 0 ≤ p.whirlpool_time)
    (ha : -273.15 < p.temp_approach) (hk12 : k1 ≤ k2)
    {s1 s2 : MibuState} (hR : PostR p s1 s2) :
    PostR p (mibuBody { p with cooling_coefficient := k1 } s1)
      (mibuBody { p with cooling_coefficient := k2 } s2) := by
  obtain ⟨hw1, hw2, ht, hg, htpw, htt, hta, hut, hu⟩ := hR
  have ht_time : p.hop.time ≤ s2.t := by linarith
  have hnl2 : ¬ s2.t < p.hop.time := not_lt.2 ht_time
  have hnl1 : ¬ s1.t < p.hop.time := by rw [ht]; exact hnl2
  have hnw2 : ¬ s2.t < p.hop.time + p.whirlpool_time := not_lt.2 htt
  have hnw1 : ¬ s1.t < p.hop.time + p.whirlpool_time := by rw [ht]; exact hnw2
  have hgr1 : mibuGravity { p with cooling_coefficient := k1 } s1 = s1.gravity := by
    unfold mibuGravity
    rw [if_neg (show ¬ s1.t <
      ({ p with cooling_coefficient := k1 } : MibuParams).hop.time from hnl1)]
  have hgr2 : mibuGravity { p with cooling_coefficient := k2 } s2 = s2.gravity := by
    unfold mibuGravity
    rw [if_neg (show ¬ s2.t <
      ({ p with cooling_coefficient := k2 } : MibuParams).hop.time from hnl2)]
  have hT1 : mibuTemp { p with cooling_coefficient := k1 } s1
      = celsius_to_kelvin ((s1.temp_post_whirlpool - p.temp_approach) *
        Real.exp (-1.0 * k1 * (s1.t - p.whirlpool_time - p.hop.time))
        + p.temp_approach) := by
    rw [mibuTemp_post _ (show ¬ s1.t <
        ({ p with cooling_coefficient := k1 } : MibuParams).hop.time from hnl1)
      (show ¬ s1.t < ({ p with cooling_coefficient := k1 } : MibuParams).hop.time
        + ({ p with cooling_coefficient := k1 } : MibuParams).whirlpool_time from hnw1)]
  have hT2 : mibuTemp { p with cooling_coefficient := k2 } s2
      = celsius_to_kelvin ((s2.temp_post_whirlpool - p.temp_approach) *
        Real.exp (-1.0 * k2 * (s2.t - p.whirlpool_time - p.hop.time))
        + p.temp_approach) := by
    rw [mibuTemp_post _ (show ¬ s2.t <
        ({ p with cooling_coefficient := k2 } : MibuParams).hop.time from hnl2)
      (show ¬ s2.t < ({ p with cooling_coefficient := k2 } : MibuParams).hop.time
        + ({ p with cooling_coefficient := k2 } : MibuParams).whirlpool_time from hnw2)]
  have hx : 0 ≤ s2.t - p.whirlpool_time - p.hop.time := by linarith
  have htle : mibuTemp { p with cooling_coefficient := k2 } s2
      ≤ mibuTemp { p with cooling_coefficient := k1 } s1 := by
    rw [hT1, hT2, ht, htpw]
    exact forced_temp_le hta hx hk12
  have htpos : 0 < mibuTemp { p with cooling_coefficient := k2 } s2 := by
    rw [hT2]
    exact forced_temp_pos hta ha
  have hdegle : mibuDeg { p with cooling_coefficient := k2 } s2
      ≤ mibuDeg { p with cooling_coefficient := k1 } s1 := by
    unfold mibuDeg
    rw [ht]
    by_cases h5 : s2.t < 5.0
    · rw [if_pos h5, if_pos h5]
    · rw [if_neg h5, if_neg h5]
      refine min_le_min (le_refl _) ?_
      have hT1p : 0 < mibuTemp { p with cooling_coefficient := k1 } s1 :=
        lt_of_lt_of_le htpos htle
      have hdivle : -9773.0 / mibuTemp { p with cooling_coefficient := k2 } s2
          ≤ -9773.0 / mibuTemp { p with cooling_coefficient := k1 } s1 := by
        rw [neg_div, neg_div, neg_le_neg_iff]
        exact div_le_div_of_nonneg_left (by norm_num) htpos htle
      have hexple := Real.exp_le_exp.2 hdivle
      have hc : (0:ℝ) ≤ 2.39 * (10.0:ℝ) ^ (11.0:ℝ) := by
        have := Real.rpow_pos_of_pos (show (0:ℝ) < 10.0 by norm_num) (11.0:ℝ)
        nlinarith
      exact mul_le_mul_of_nonneg_left hexple hc
  have hdueq : mibuDU { p with cooling_coefficient := k2 } s2
      = mibuDU { p with cooling_coefficient := k1 } s1 := by
    unfold mibuDU
    rw [hgr1, hgr2, hg, ht]
  refine ⟨?_, ?_, ?_, ?_, ?_, ?_, ?_, ?_, ?_⟩
  · rw [mibuBody_whirlpool_done]; exact hw1
  · rw [mibuBody_whirlpool_done]; exact hw2
  · rw [mibuBody_t, mibuBody_t, ht]
  · rw [mibuBody_gravity, mibuBody_gravity, hgr1, hgr2, hg]
  · rw [mibuBody_tpw, mibuBody_tpw]; exact htpw
  · rw [mibuBody_t]
    have hdt2 : (0:ℝ)
        ≤ ({ p with cooling_coefficient := k2 } : MibuParams).integration_time := hdt
    linarith
  · rw [mibuBody_tpw]; exact hta
  · rw [mibuBody_util_time, mibuBody_util_time]; exact hut
  · rw [mibuBody_u_total, mibuBody_u_total, hdueq]
    have hd : 0 ≤ mibuDU { p with cooling_coefficient := k1 } s1 :=
      (mibuDU_pos _ s1).le
    have hdeg2 : 0 ≤ mibuDeg { p with cooling_coefficient := k2 } s2 :=
      (mibuDeg_pos _ s2).le
    have hdt1 : (0:ℝ)
        ≤ ({ p with cooling_coefficient := k1 } : MibuParams).integration_time := hdt
    have hdt2 : (0:ℝ)
        ≤ ({ p with cooling_coefficient := k2 } : MibuParams).integration_time := hdt
    have hdteq : ({ p with cooling_coefficient := k2 } : MibuParams).integration_time
        = ({ p with cooling_coefficient := k1 } : MibuParams).integration_time := rfl
    rw [hdteq]
    have key : 0 ≤ mibuDU { p with cooling_coefficient := k1 } s1
        * (mibuDeg { p with cooling_coefficient := k1 } s1
            - mibuDeg { p with cooling_coefficient := k2 } s2)
        * ({ p with cooling_coefficient := k1 } : MibuParams).integration_time :=
      mul_nonneg (mul_nonneg hd (by linarith)) hdt1
    nlinarith [key]

lemma postR_loop (p : MibuParams) (k1 k2 : ℝ)
    (hdt : 0 ≤ p.integration_time) (hwh : 0 ≤ p.whirlpool_time)
    (ha : -273.15 < p.temp_approach) (hk12 : k1 ≤ k2) :
    ∀ (f2 : ℕ) (s1 s2 : MibuState), PostR p s1 s2 →
      ∀ (f1 : ℕ) (u1 u2 : ℝ) (g1 g2 : Graph),
        mibuLoop { p with cooling_coefficient := k1 } f1 s1 = .ok u1 g1 →
        mibuLoop { p with cooling_coefficient := k2 } f2 s2 = .ok u2 g2 →
        u2 ≤ u1 := by
  intro f2
  induction f2 with
  | zero =>
    intro s1 s2 hR f1 u1 u2 g1 g2 h1 h2
    exact absurd h2 (by simp [mibuLoop])
  | succ n ih =>
    intro s1 s2 hR f1 u1 u2 g1 g2 hrun1 hrun2
    obtain ⟨hw1, hw2, ht, hg, htpw, htt, hta, hut, hu⟩ := hR
    by_cases hb2 : s2.util_time ≤ s2.t
    · rw [mibuLoop_brk (mibuStep_brk hb2 hw2)] at hrun2
      simp only [MibuResult.ok.injEq] at hrun2
      obtain ⟨hequ, _⟩ := hrun2
      have hmono : s1.u_total ≤ u1 :=
        mibuLoop_ok_u_mono (p := { p with cooling_coefficient := k1 })
          hdt f1 s1 u1 g1 hrun1
      linarith
    · have hb1 : ¬ s1.util_time ≤ s1.t := by
        intro hcon
        rw [ht] at hcon
        push_neg at hb2
        linarith
      rw [mibuLoop_next (mibuStep_body hb2)] at hrun2
      cases f1 with
      | zero => exact absurd hrun1 (by simp [mibuLoop])
      | succ m =>
        rw [mibuLoop_next (mibuStep_body hb1)] at hrun1
        exact ih _ _ (postR_body p k1 k2 hdt hwh ha hk12
          ⟨hw1, hw2, ht, hg, htpw, htt, hta, hut, hu⟩) m u1 u2 g1 g2 hrun1 hrun2

lemma body_k_indep (p : MibuParams) (k1 k2 : ℝ) {s : MibuState}
    (hnb : ¬ s.util_time ≤ s.t) (hInv : MibuInv p s) :
    mibuBody { p with cooling_coefficient := k1 } s
      = mibuBody { p with cooling_coefficient := k2 } s := by
  have htw : s.t < p.hop.time + p.whirlpool_time := by
    rw [hInv.1] at hnb
    push_neg at hnb
    exact hnb
  have htemp : mibuTemp { p with cooling_coefficient := k1 } s
      = mibuTemp { p with cooling_coefficient := k2 } s := by
    rw [mibuTemp_pre _ (show s.t <
        ({ p with cooling_coefficient := k1 } : MibuParams).hop.time
        + ({ p with cooling_coefficient := k1 } : MibuParams).whirlpool_time from htw),
      mibuTemp_pre _ (show s.t <
        ({ p with cooling_coefficient := k2 } : MibuParams).hop.time
        + ({ p with cooling_coefficient := k2 } : MibuParams).whirlpool_time from htw)]
    rfl
  have hdeg : mibuDeg { p with cooling_coefficient := k1 } s
      = mibuDeg { p with cooling_coefficient := k2 } s := by
    unfold mibuDeg
    rw [htemp]
  unfold mibuBody
  rw [htemp, hdeg]
  rfl

lemma mibu_couple (p : MibuParams) (k1 k2 : ℝ)
    (hdt : 0 < p.integration_time) (hwh : 0 ≤ p.whirlpool_time)
    (ha : -273.15 < p.temp_approach) (hat : p.temp_approach < p.temp_target)
    (ht46 : p.temp_target < 46.4) (hvol : 0 < p.post_boil_volume)
    (hk1 : 0 < k1) (hk12 : k1 ≤ k2) :
    ∀ (f2 : ℕ) (s : MibuState), s.whirlpool_done = false → MibuInv p s →
      ∀ (f1 : ℕ) (u1 u2 : ℝ) (g1 g2 : Graph),
        mibuLoop { p with cooling_coefficient := k1 } f1 s = .ok u1 g1 →
        mibuLoop { p with cooling_coefficient := k2 } f2 s = .ok u2 g2 →
        u2 ≤ u1 := by
  intro f2
  induction f2 with
  | zero =>
    intro s hw hInv f1 u1 u2 g1 g2 h1 h2
    exact absurd h2 (by simp [mibuLoop])
  | succ n ih =>
    intro s hw hInv f1 u1 u2 g1 g2 hrun1 hrun2
    by_cases hb : s.util_time ≤ s.t
    · have h3 : ¬ p.temp_target ≤ p.temp_approach := not_le.2 hat
      have hstep1 : mibuStep { p with cooling_coefficient := k1 } s
          = .next (mibuBody { p with cooling_coefficient := k1 }
              (mibuExtend { p with cooling_coefficient := k1 } s)) :=
        mibuStep_boundary_ok hb hw h3
      have hstep2 : mibuStep { p with cooling_coefficient := k2 } s
          = .next (mibuBody { p with cooling_coefficient := k2 }
              (mibuExtend { p with cooling_coefficient := k2 } s)) :=
        mibuStep_boundary_ok hb hw h3
      rw [mibuLoop_next hstep2] at hrun2
      cases f1 with
      | zero => exact absurd hrun1 (by simp [mibuLoop])
      | succ m =>
        rw [mibuLoop_next hstep1] at hrun1
        have htpwgt : p.temp_target < kelvin_to_celsius s.temp_k := by
          unfold kelvin_to_celsius
          linarith [hInv.2.1]
        have hta' : p.temp_approach < kelvin_to_celsius s.temp_k := by linarith
        have hctle : cool_time p.temp_approach p.temp_target k2
            (kelvin_to_celsius s.temp_k)
            ≤ cool_time p.temp_approach p.temp_target k1
              (kelvin_to_celsius s.temp_k) :=
          cool_time_anti_k hat htpwgt hk1 hk12
        have hPostR : PostR p
            (mibuExtend { p with cooling_coefficient := k1 } s)
            (mibuExtend { p with cooling_coefficient := k2 } s) := by
          refine ⟨rfl, rfl, rfl, rfl, rfl, ?_, ?_, ?_, le_refl _⟩
          · rw [mibuExtend_t, ← hInv.1]
            exact hb
          · show p.temp_approach < kelvin_to_celsius s.temp_k
            exact hta'
          · rw [mibuExtend_util_time, mibuExtend_util_time]
            show s.util_time + cool_time p.temp_approach p.temp_target k2
                (kelvin_to_celsius s.temp_k)
              ≤ s.util_time + cool_time p.temp_approach p.temp_target k1
                (kelvin_to_celsius s.temp_k)
            linarith
        exact postR_loop p k1 k2 hdt.le hwh ha hk12 n _ _
          (postR_body p k1 k2 hdt.le hwh ha hk12 hPostR) m u1 u2 g1 g2 hrun1 hrun2
    · have hbody := body_k_indep p k1 k2 hb hInv
      rw [mibuLoop_next (mibuStep_body hb)] at hrun2
      cases f1 with
      | zero => exact absurd hrun1 (by simp [mibuLoop])
      | succ m =>
        rw [mibuLoop_next (mibuStep_body hb)] at hrun1
        rw [← hbody] at hrun2
        refine ih (mibuBody { p with cooling_coefficient := k1 } s)
          (by rw [mibuBody_whirlpool_done]; exact hw) ?_ m u1 u2 g1 g2 hrun1 hrun2
        exact mibuInv_body (p := { p with cooling_coefficient := k1 }) hvol hb hInv

/-- C5: for a fixed addition and fixed valid remaining inputs (positive step,
non-negative whirlpool time, physically sensible approach temperature,
approach < target < 46.4 °C — the whirlpool-end temperature always exceeds
46.4 °C, so the claim's side condition that it exceeds the target holds —
positive volume), the utilization returned by `utilization_mibu` is
monotonically non-increasing in the cooling coefficient: if k2 > k1 > 0 then
every normally returned utilization for k2 is ≤ the one for k1. -/
theorem utilization_anti_cooling (p : MibuParams) (k1 k2 : ℝ)
    (hdt : 0 < p.integration_time) (hwh : 0 ≤ p.whirlpool_time)
    (ha : -273.15 < p.temp_approach) (hat : p.temp_approach < p.temp_target)
    (ht46 : p.temp_target < 46.4) (hvol : 0 < p.post_boil_volume)
    (hk1 : 0 < k1) (hk12 : k1 < k2) :
    ∀ (gr : Graph) (f1 f2 : ℕ) (u1 u2 : ℝ) (g1 g2 : Graph),
      utilization_mibu { p with cooling_coefficient := k1 } f1 gr = .ok u1 g1 →
      utilization_mibu { p with cooling_coefficient := k2 } f2 gr = .ok u2 g2 →
      u2 ≤ u1 := by
  intro gr f1 f2 u1 u2 g1 g2 h1 h2
  rw [utilization_mibu] at h1 h2
  have hinit : mibuInit { p with cooling_coefficient := k2 } gr
      = mibuInit { p with cooling_coefficient := k1 } gr := rfl
  rw [hinit] at h2
  exact mibu_couple p k1 k2 hdt hwh ha hat ht46 hvol hk1 hk12.le f2
    (mibuInit { p with cooling_coefficient := k1 } gr) rfl
    (mibuInv_init _ gr) f1 u1 u2 g1 g2 h1 h2

/-- Witness for C5 at a concrete valid parameter set, k1 = 1 < 2 = k2. -/
theorem utilization_anti_cooling_witness :
    (0 < (exParams 1).integration_time ∧ 0 ≤ (exParams 1).whirlpool_time ∧
      -273.15 < (exParams 1).temp_approach ∧
      (exParams 1).temp_approach < (exParams 1).temp_target ∧
      (exParams 1).temp_target < 46.4 ∧ 0 < (exParams 1).post_boil_volume ∧
      (0:ℝ) < 1 ∧ (1:ℝ) < 2) ∧
    (∀ (gr : Graph) (f1 f2 : ℕ) (u1 u2 : ℝ) (g1 g2 : Graph),
      utilization_mibu { exParams 1 with cooling_coefficient := 1 } f1 gr = .ok u1 g1 →
      utilization_mibu { exParams 1 with cooling_coefficient := 2 } f2 gr = .ok u2 g2 →
      u2 ≤ u1) :=
  ⟨⟨by show (0:ℝ) < 1; norm_num, by show (0:ℝ) ≤ 0; norm_num,
      by show (-273.15:ℝ) < 7; norm_num, by show (7:ℝ) < 20; norm_num,
      by show (20:ℝ) < 46.4; norm_num, by show (0:ℝ) < 20; norm_num,
      by norm_num, by norm_num⟩,
    utilization_anti_cooling (exParams 1) 1 2 (by show (0:ℝ) < 1; norm_num)
      (by show (0:ℝ) ≤ 0; norm_num) (by show (-273.15:ℝ) < 7; norm_num)
      (by show (7:ℝ) < 20; norm_num) (by show (20:ℝ) < 46.4; norm_num)
      (by show (0:ℝ) < 20; norm_num) (by norm_num) (by norm_num)⟩
